import Mathlib

/-!
A shallow embedding of the `debug2` pretty-printing library and proofs about it.

The embedding follows `src/lib.rs` and `src/builders.rs`:

* Output sinks are in-memory character buffers (`List Char`).  The only sink the
  library ever writes into is a growable Rust `String`, whose `write_str` never
  fails, so base writes are modelled as infallible concatenation.  Rendering
  failures enter through a nested `Debug::fmt` implementation returning
  `Err(fmt::Error)`; since `fmt::Error` is a unit struct, a rendering outcome is
  modelled as `List Char × Bool` -- the text written so far plus an ok flag.
* `PadAdapter::write_str` (builders.rs lines 32-55) is modelled twice: once
  abstractly over an arbitrary fallible lower writer (`padWriteStr`, used to
  state the indentation-writer contract), and once specialised to the
  infallible in-memory sink (`padPure`, used inside the builder operations).
  The two agree (`padWriteStr_concatSink`).
* Each builder (`DebugStruct`, `DebugTuple`, `DebugInner` for list/set,
  `DebugMap`) holds in Rust a `&mut Formatter` plus its flags.  Here the
  builder record holds the formatter's buffer contents (`out`) plus the same
  flags.  The formatter's layout `mode` is dropped from the builder record
  because no builder operation reads it: `Formatter::is_pretty` (lib.rs line
  516) has no callers anywhere in the crate.  The mode is still threaded
  through the rendering dispatch `fmtVal` so that its irrelevance is a theorem
  rather than an assumption.
* A renderable value (`dyn Debug`) interacts with its formatter only through
  `write_str` calls on the formatter's buffer, so the effect of a nested
  `value.fmt(&mut writer)` call is: the text it wrote (pushed through the
  enclosing `PadAdapter`) plus whether it returned `Ok`.  Builder operations
  therefore take the nested value's effect as a `List Char × Bool` argument.
  Writing the concatenated child text through the adapter in one call is
  equivalent to the child's individual chunked writes because the pad loop is
  a morphism for concatenation over an infallible sink (`padPure_append`).
* The deep value type `DValue` mirrors the shapes the crate's `Debug`
  implementations produce (std_impls.rs): opaque leaf text via `write_debug`,
  an always-failing value (like `Bad` in the `pprint_checked` doc example),
  and the five structural builders.
-/

namespace Debug2

/-- `Mode` (lib.rs lines 253-257): the layout mode carried by the formatter. -/
inductive Mode where
  | Pretty
  | Flat
deriving DecidableEq

/-- `Formatter` (lib.rs lines 248-251): the output sink plus the layout mode.
The sink is the in-memory string buffer, whose writes always succeed. -/
structure Formatter where
  out : List Char
  mode : Mode
deriving DecidableEq

/-- `Formatter::write_str` (lib.rs line 341): append to the in-memory sink. -/
def Formatter.write_str (f : Formatter) (s : List Char) : Formatter :=
  { f with out := f.out ++ s }

/-- `Formatter::is_pretty` (lib.rs lines 516-518).  No code in the crate ever
calls this function; it is included to document that fact. -/
def Formatter.is_pretty (f : Formatter) : Bool :=
  decide (f.mode = Mode.Pretty)

/-- The four-space indent unit `"    "` written by `PadAdapter::write_str`. -/
def indentStr : List Char := [' ', ' ', ' ', ' ']

/-- Position of the first newline, mirroring `s.find('\n')` in
`PadAdapter::write_str` (builders.rs line 39). -/
def findNewline : List Char → Option Nat
  | [] => none
  | c :: cs => if c = '\n' then some 0 else (findNewline cs).map (· + 1)

/-- `PadAdapter::write_str` (builders.rs lines 32-55) over an arbitrary
fallible destination writer `lower`.  The loop runs while the remaining input
is nonempty: if the adapter is at the start of a line it first writes the
four-space indent, then it splits the input just after the first newline (or
takes it all if there is none, clearing the line-start state), writes that
chunk, and continues with the rest.  A failing destination write propagates
out through `?` unchanged. -/
def padWriteStr {σ ε : Type} (lower : σ → List Char → Except ε σ)
    (st : σ) (on_newline : Bool) (s : List Char) : Except ε (σ × Bool) :=
  match s with
  | [] => .ok (st, on_newline)
  | c :: cs => do
    let st1 ← if on_newline then lower st indentStr else .ok st
    match findNewline (c :: cs) with
    | some pos => do
      let st2 ← lower st1 ((c :: cs).take (pos + 1))
      padWriteStr lower st2 true ((c :: cs).drop (pos + 1))
    | none => do
      let st2 ← lower st1 (c :: cs)
      .ok (st2, false)
termination_by s.length
decreasing_by simp; omega

/-- The destination writer actually used by the library: the infallible
in-memory string buffer, which concatenates. -/
def concatSink : List Char → List Char → Except Unit (List Char) :=
  fun acc t => .ok (acc ++ t)

/-- `PadAdapter::write_str` specialised to the in-memory sink: `acc` is the
destination buffer, `on_newline` the `PadAdapterState`, `s` the input.
Same loop as `padWriteStr`; writes cannot fail. -/
def padPure (acc : List Char) (on_newline : Bool) (s : List Char) :
    List Char × Bool :=
  match s with
  | [] => (acc, on_newline)
  | c :: cs =>
    let acc1 := if on_newline then acc ++ indentStr else acc
    match findNewline (c :: cs) with
    | some pos => padPure (acc1 ++ (c :: cs).take (pos + 1)) true ((c :: cs).drop (pos + 1))
    | none => (acc1 ++ (c :: cs), false)
termination_by s.length
decreasing_by simp; omega

/-- `DebugStruct` (builders.rs lines 91-95): formatter buffer, sticky result,
`has_fields` flag. -/
structure DebugStruct where
  out : List Char
  result : Bool
  has_fields : Bool
deriving DecidableEq

/-- `debug_struct_new` (builders.rs lines 97-107): writes the name
immediately; the write into the string buffer succeeds. -/
def debug_struct_new (fmt : Formatter) (name : List Char) : DebugStruct :=
  { out := (fmt.write_str name).out, result := true, has_fields := false }

/-- `DebugStruct::field` (builders.rs lines 139-155).  `child` is the effect of
`value.fmt(&mut writer)`: the text the nested value wrote and whether it
returned `Ok`.  On the first field, writes `" {\n"`; then a fresh
`PadAdapter` writes the field name, `": "`, the child's output and `",\n"`
(the last write is skipped when the child failed).  `has_fields` is set
outside the `and_then`, so it is updated even on the error path. -/
def DebugStruct.field (b : DebugStruct) (name : List Char)
    (child : List Char × Bool) : DebugStruct :=
  let b1 :=
    if b.result then
      let o1 := if b.has_fields then b.out else b.out ++ [' ', '\x7b', '\n']
      let p2 := padPure o1 true name
      let p3 := padPure p2.1 p2.2 [':', ' ']
      let p4 := padPure p3.1 p3.2 child.1
      if child.2 then
        let p5 := padPure p4.1 p4.2 [',', '\n']
        { b with out := p5.1 }
      else
        { b with out := p4.1, result := false }
    else b
  { b1 with has_fields := true }

/-- `DebugStruct::finish_non_exhaustive` (builders.rs lines 184-197): with
fields, an indented `"..\n"` line then `"}"`; with no fields, `" { .. }"`. -/
def DebugStruct.finish_non_exhaustive (b : DebugStruct) : List Char × Bool :=
  if b.result then
    if b.has_fields then
      let p := padPure b.out true ['.', '.', '\n']
      (p.1 ++ ['\x7d'], true)
    else
      (b.out ++ [' ', '\x7b', ' ', '.', '.', ' ', '\x7d'], true)
  else (b.out, false)

/-- `DebugStruct::finish` (builders.rs lines 227-232): writes `"}"` only when
at least one field was added; returns the sticky result. -/
def DebugStruct.finish (b : DebugStruct) : List Char × Bool :=
  if b.has_fields then
    if b.result then (b.out ++ ['\x7d'], true) else (b.out, false)
  else (b.out, b.result)

/-- `DebugTuple` (builders.rs lines 266-270): buffer, sticky result, field
count. -/
structure DebugTuple where
  out : List Char
  result : Bool
  fields : Nat
deriving DecidableEq

/-- `debug_tuple_new` (builders.rs lines 272-282). -/
def debug_tuple_new (fmt : Formatter) (name : List Char) : DebugTuple :=
  { out := (fmt.write_str name).out, result := true, fields := 0 }

/-- `DebugTuple::field` (builders.rs lines 309-323): on the first field writes
`"(\n"`, then a fresh `PadAdapter` writes the child's output and `",\n"`.
The field count is incremented outside the `and_then`. -/
def DebugTuple.field (b : DebugTuple) (child : List Char × Bool) : DebugTuple :=
  let b1 :=
    if b.result then
      let o1 := if b.fields = 0 then b.out ++ ['(', '\n'] else b.out
      let p2 := padPure o1 true child.1
      if child.2 then
        let p3 := padPure p2.1 p2.2 [',', '\n']
        { b with out := p3.1 }
      else
        { b with out := p2.1, result := false }
    else b
  { b1 with fields := b1.fields + 1 }

/-- `DebugTuple::finish` (builders.rs lines 350-355): writes `")"` only when
at least one field was added. -/
def DebugTuple.finish (b : DebugTuple) : List Char × Bool :=
  if b.fields > 0 then
    if b.result then (b.out ++ [')'], true) else (b.out, false)
  else (b.out, b.result)

/-- `DebugInner` (builders.rs lines 358-362): the shared core of the list and
set builders. -/
structure DebugInner where
  out : List Char
  result : Bool
  has_fields : Bool
deriving DecidableEq

/-- `DebugInner::entry` (builders.rs lines 364-379): on the first entry writes
`"\n"`, then a fresh `PadAdapter` writes the child's output and `",\n"`.
`has_fields` is set outside the `and_then`. -/
def DebugInner.entry (b : DebugInner) (child : List Char × Bool) : DebugInner :=
  let b1 :=
    if b.result then
      let o1 := if b.has_fields then b.out else b.out ++ ['\n']
      let p2 := padPure o1 true child.1
      if child.2 then
        let p3 := padPure p2.1 p2.2 [',', '\n']
        { b with out := p3.1 }
      else
        { b with out := p2.1, result := false }
    else b
  { b1 with has_fields := true }

/-- `DebugSet` (builders.rs lines 409-411). -/
structure DebugSet where
  inner : DebugInner
deriving DecidableEq

/-- `debug_set_new` (builders.rs lines 413-422): writes the opening `"{"`
unconditionally at construction. -/
def debug_set_new (fmt : Formatter) : DebugSet :=
  ⟨{ out := (fmt.write_str ['\x7b']).out, result := true, has_fields := false }⟩

/-- `DebugSet::entry` (builders.rs lines 449-452). -/
def DebugSet.entry (b : DebugSet) (child : List Char × Bool) : DebugSet :=
  ⟨b.inner.entry child⟩

/-- `DebugSet::finish` (builders.rs lines 512-517): writes the closing `"}"`
whether or not any entries were added. -/
def DebugSet.finish (b : DebugSet) : List Char × Bool :=
  if b.inner.result then (b.inner.out ++ ['\x7d'], true) else (b.inner.out, false)

/-- `DebugList` (builders.rs lines 546-548). -/
structure DebugList where
  inner : DebugInner
deriving DecidableEq

/-- `debug_list_new` (builders.rs lines 550-559): writes the opening `"["`
unconditionally at construction. -/
def debug_list_new (fmt : Formatter) : DebugList :=
  ⟨{ out := (fmt.write_str ['[']).out, result := true, has_fields := false }⟩

/-- `DebugList::entry` (builders.rs lines 586-589). -/
def DebugList.entry (b : DebugList) (child : List Char × Bool) : DebugList :=
  ⟨b.inner.entry child⟩

/-- `DebugList::finish` (builders.rs lines 649-654): writes the closing `"]"`
whether or not any entries were added. -/
def DebugList.finish (b : DebugList) : List Char × Bool :=
  if b.inner.result then (b.inner.out ++ [']'], true) else (b.inner.out, false)

/-- `DebugMap` (builders.rs lines 684-691): buffer, sticky result,
`has_fields`, the key/value pairing flag `has_key`, and the `PadAdapterState`
that is shared between a `key` call and the following `value` call.  The
extra `panicked` flag models an `assert!` having fired: a Rust panic aborts
the rendering, so every operation on a panicked builder is absorbing. -/
structure DebugMap where
  out : List Char
  result : Bool
  has_fields : Bool
  has_key : Bool
  state : Bool
  panicked : Bool
deriving DecidableEq

/-- `debug_map_new` (builders.rs lines 693-702): writes the opening `"{"`;
the shared pad state starts at line start (`Default::default()`). -/
def debug_map_new (fmt : Formatter) : DebugMap :=
  { out := (fmt.write_str ['\x7b']).out, result := true, has_fields := false,
    has_key := false, state := true, panicked := false }

/-- `DebugMap::key` (builders.rs lines 764-786).  Inside the `and_then` (so
skipped entirely once the result is an error): asserts that no key is
pending, writes `"\n"` before the first entry, resets the shared pad state,
and writes the key's output followed by `": "` through a `PadAdapter` using
that shared state; only then sets `has_key`. -/
def DebugMap.key (b : DebugMap) (child : List Char × Bool) : DebugMap :=
  if b.panicked then b
  else if b.result then
    if b.has_key then { b with panicked := true }
    else
      let o1 := if b.has_fields then b.out else b.out ++ ['\n']
      let p2 := padPure o1 true child.1
      if child.2 then
        let p3 := padPure p2.1 p2.2 [':', ' ']
        { b with out := p3.1, state := p3.2, has_key := true }
      else
        { b with out := p2.1, state := p2.2, result := false }
  else b

/-- `DebugMap::value` (builders.rs lines 820-838).  Inside the `and_then`:
asserts that a key is pending, writes the value's output and `",\n"` through
a `PadAdapter` continuing from the shared pad state, and clears `has_key`.
`has_fields` is set outside the `and_then`, so it is updated on the error
path as well -- but not when the assertion panics, since a panic unwinds
before reaching that statement. -/
def DebugMap.value (b : DebugMap) (child : List Char × Bool) : DebugMap :=
  if b.panicked then b
  else if b.result then
    if b.has_key then
      let p1 := padPure b.out b.state child.1
      if child.2 then
        let p2 := padPure p1.1 p1.2 [',', '\n']
        { b with out := p2.1, state := p2.2, has_key := false, has_fields := true }
      else
        { b with out := p1.1, state := p1.2, result := false, has_fields := true }
    else { b with panicked := true }
  else { b with has_fields := true }

/-- `DebugMap::entry` (builders.rs lines 728-730): literally
`self.key(key).value(value)`. -/
def DebugMap.entry (b : DebugMap) (k v : List Char × Bool) : DebugMap :=
  (b.key k).value v

/-- Outcome of `DebugMap::finish`: `Ok`, a propagated `fmt::Error`, or an
`assert!` panic. -/
inductive MapFinishRes where
  | fOk
  | fErr
  | fPanic
deriving DecidableEq

/-- True exactly on the `Ok` outcome. -/
def MapFinishRes.isOk : MapFinishRes → Bool
  | .fOk => true
  | _ => false

/-- `DebugMap::finish` (builders.rs lines 905-914): inside the `and_then` (so
skipped once the result is an error), asserts that no key is pending and
writes the closing `"}"` unconditionally. -/
def DebugMap.finish (b : DebugMap) : List Char × MapFinishRes :=
  if b.panicked then (b.out, .fPanic)
  else if b.result then
    if b.has_key then (b.out, .fPanic)
    else (b.out ++ ['\x7d'], .fOk)
  else (b.out, .fErr)

/-- A renderable value (`dyn Debug`), covering the shapes produced by the
crate's `Debug` implementations (std_impls.rs and the derive):
`raw s` is a leaf whose `fmt` writes the text `s` and returns `Ok` (a
`write_debug`/`write_str` leaf such as a number, bool or string);
`err` is a value whose `fmt` writes nothing and returns `Err(fmt::Error)`
(like `Bad` in the `pprint_checked` doc example);
the remaining constructors render through the matching builder, adding each
field/entry in order and then calling `finish`. -/
inductive DValue where
  | raw : List Char → DValue
  | err : DValue
  | strct : List Char → List (List Char × DValue) → DValue
  | tup : List Char → List DValue → DValue
  | lst : List DValue → DValue
  | set : List DValue → DValue
  | map : List (DValue × DValue) → DValue

mutual

/-- `Debug::fmt` for a `DValue` against a formatter with layout mode `m` and
an empty local buffer: returns the text the value writes and whether it
returns `Ok`.  The mode is threaded exactly as the `Formatter` threads it
(`wrap_buf` preserves it, lib.rs lines 496-514) and is never consulted. -/
def fmtVal (m : Mode) : DValue → List Char × Bool
  | .raw s => (s, true)
  | .err => ([], false)
  | .strct name fs =>
      DebugStruct.finish (fmtStructFields m (debug_struct_new { out := [], mode := m } name) fs)
  | .tup name fs =>
      DebugTuple.finish (fmtTupleFields m (debug_tuple_new { out := [], mode := m } name) fs)
  | .lst xs =>
      DebugList.finish (fmtListEntries m (debug_list_new { out := [], mode := m }) xs)
  | .set xs =>
      DebugSet.finish (fmtSetEntries m (debug_set_new { out := [], mode := m }) xs)
  | .map kvs =>
      let r := DebugMap.finish (fmtMapEntries m (debug_map_new { out := [], mode := m }) kvs)
      (r.1, r.2.isOk)
termination_by v => sizeOf v
decreasing_by all_goals (simp_wf <;> omega)

/-- Add each named field in order via `DebugStruct::field`. -/
def fmtStructFields (m : Mode) (b : DebugStruct) :
    List (List Char × DValue) → DebugStruct
  | [] => b
  | (n, v) :: rest => fmtStructFields m (b.field n (fmtVal m v)) rest
termination_by l => sizeOf l
decreasing_by all_goals (simp_wf <;> omega)

/-- Add each field in order via `DebugTuple::field`. -/
def fmtTupleFields (m : Mode) (b : DebugTuple) : List DValue → DebugTuple
  | [] => b
  | v :: rest => fmtTupleFields m (b.field (fmtVal m v)) rest
termination_by l => sizeOf l
decreasing_by all_goals (simp_wf <;> omega)

/-- Add each entry in order via `DebugList::entry` (what
`DebugList::entries` does for an iterator). -/
def fmtListEntries (m : Mode) (b : DebugList) : List DValue → DebugList
  | [] => b
  | v :: rest => fmtListEntries m (b.entry (fmtVal m v)) rest
termination_by l => sizeOf l
decreasing_by all_goals (simp_wf <;> omega)

/-- Add each entry in order via `DebugSet::entry`. -/
def fmtSetEntries (m : Mode) (b : DebugSet) : List DValue → DebugSet
  | [] => b
  | v :: rest => fmtSetEntries m (b.entry (fmtVal m v)) rest
termination_by l => sizeOf l
decreasing_by all_goals (simp_wf <;> omega)

/-- Add each pair in order via `DebugMap::entry` (what `DebugMap::entries`
does for an iterator). -/
def fmtMapEntries (m : Mode) (b : DebugMap) : List (DValue × DValue) → DebugMap
  | [] => b
  | (k, v) :: rest => fmtMapEntries m (b.entry (fmtVal m k) (fmtVal m v)) rest
termination_by l => sizeOf l
decreasing_by all_goals (simp_wf <;> omega)

end

/-- `MAX_LEN` (lib.rs line 165): the 80-byte width threshold. -/
def MAX_LEN : Nat := 80

/-- Rust `String::len` counts UTF-8 bytes. -/
def strLen (s : List Char) : Nat := (s.map Char.utf8Size).sum

/-- `pprint_mode` (lib.rs lines 263-271): render into a fresh in-memory sink
with the given mode; a rendering failure discards the buffer and returns the
error. -/
def pprint_mode (v : DValue) (m : Mode) : Except Unit (List Char) :=
  match fmtVal m v with
  | (o, true) => .ok o
  | (_, false) => .error ()

/-- `flatprint_checked` (lib.rs lines 259-261). -/
def flatprint_checked (v : DValue) : Except Unit (List Char) :=
  pprint_mode v Mode.Flat

/-- `pprint_checked` (lib.rs lines 297-304): render once in `Flat` mode; if
the result is at most `MAX_LEN` bytes return it, otherwise re-render from
scratch in `Pretty` mode. -/
def pprint_checked (v : DValue) : Except Unit (List Char) :=
  match flatprint_checked v with
  | .error e => .error e
  | .ok flat =>
    if strLen flat ≤ MAX_LEN then .ok flat
    else pprint_mode v Mode.Pretty

mutual

/-- Whether a value or one of its nested descendants is the always-failing
renderer `DValue.err`. -/
def hasErr : DValue → Bool
  | .raw _ => false
  | .err => true
  | .strct _ fs => hasErrFields fs
  | .tup _ fs => hasErrList fs
  | .lst xs => hasErrList xs
  | .set xs => hasErrList xs
  | .map kvs => hasErrPairs kvs
termination_by v => sizeOf v
decreasing_by all_goals (simp_wf <;> omega)

/-- `hasErr` over named fields. -/
def hasErrFields : List (List Char × DValue) → Bool
  | [] => false
  | (_, v) :: rest => hasErr v || hasErrFields rest
termination_by l => sizeOf l
decreasing_by all_goals (simp_wf <;> omega)

/-- `hasErr` over a list of values. -/
def hasErrList : List DValue → Bool
  | [] => false
  | v :: rest => hasErr v || hasErrList rest
termination_by l => sizeOf l
decreasing_by all_goals (simp_wf <;> omega)

/-- `hasErr` over key/value pairs. -/
def hasErrPairs : List (DValue × DValue) → Bool
  | [] => false
  | (k, v) :: rest => hasErr k || hasErr v || hasErrPairs rest
termination_by l => sizeOf l
decreasing_by all_goals (simp_wf <;> omega)

end

/-! ### Builder call sequences

A client of a builder performs a sequence of entry-adding calls followed by a
single `finish`.  These runners fold the source operations over such a
sequence; the child arguments are the rendering effects of arbitrary `dyn
Debug` values. -/

/-- A sequence of `DebugStruct::field` calls: each carries the field name and
the nested value's rendering effect. -/
def structSteps (b : DebugStruct) :
    List (List Char × (List Char × Bool)) → DebugStruct
  | [] => b
  | (n, c) :: rest => structSteps (b.field n c) rest

/-- A sequence of `DebugTuple::field` calls. -/
def tupleSteps (b : DebugTuple) : List (List Char × Bool) → DebugTuple
  | [] => b
  | c :: rest => tupleSteps (b.field c) rest

/-- A sequence of `DebugInner::entry` calls (list and set builders). -/
def innerSteps (b : DebugInner) : List (List Char × Bool) → DebugInner
  | [] => b
  | c :: rest => innerSteps (b.entry c) rest

/-- One operation on the map builder. -/
inductive MapOp where
  | key (child : List Char × Bool)
  | value (child : List Char × Bool)
  | entry (k v : List Char × Bool)

/-- Dispatch one map operation. -/
def mapStep (b : DebugMap) : MapOp → DebugMap
  | .key c => b.key c
  | .value c => b.value c
  | .entry k v => b.entry k v

/-- A sequence of map operations. -/
def mapSteps (b : DebugMap) : List MapOp → DebugMap
  | [] => b
  | op :: rest => mapSteps (mapStep b op) rest

/-! ### Spec-side description of the indentation writer (for the refinement
claim about `PadAdapter::write_str`) -/

/-- The indentation writer's contract as the specification words it, one
character at a time: immediately before writing any character that begins a
new line (including the very first character when the writer starts at line
start), insert the four-space indent token; afterwards the writer is at line
start exactly when the last character written was a newline.  Returns the
text written to the destination and the final line-start state. -/
def specInsertIndent (b : Bool) : List Char → List Char × Bool
  | [] => ([], b)
  | c :: cs =>
    let rest := specInsertIndent (decide (c = '\n')) cs
    ((if b then indentStr ++ [c] else [c]) ++ rest.1, rest.2)

/-- The spec-side transform threaded across a whole sequence of write calls,
line-start state preserved from call to call. -/
def specRun (b : Bool) : List (List Char) → List Char × Bool
  | [] => ([], b)
  | s :: rest =>
    let q := specInsertIndent b s
    let r := specRun q.2 rest
    (q.1 ++ r.1, r.2)

/-- A sequence of `PadAdapter::write_str` calls over the in-memory
destination, with the adapter state carried from call to call. -/
def padWriteCalls (st : List Char × Bool) :
    List (List Char) → Except Unit (List Char × Bool)
  | [] => .ok st
  | s :: rest =>
    match padWriteStr concatSink st.1 st.2 s with
    | .error e => .error e
    | .ok st1 => padWriteCalls st1 rest

/-! ### Supporting lemmas: behaviour after a sticky error -/

/-- Once the struct builder's result is an error, `field` only updates the
`has_fields` flag: the `and_then` closure never runs. -/
theorem structField_after_error (b : DebugStruct) (n : List Char)
    (c : List Char × Bool) (h : b.result = false) :
    b.field n c = { b with has_fields := true } := by
  simp [DebugStruct.field, h]

/-- Once the tuple builder's result is an error, `field` only increments the
field count. -/
theorem tupleField_after_error (b : DebugTuple) (c : List Char × Bool)
    (h : b.result = false) :
    b.field c = { b with fields := b.fields + 1 } := by
  simp [DebugTuple.field, h]

/-- Once the list/set core's result is an error, `entry` only updates the
`has_fields` flag. -/
theorem DebugInner.entry_after_error (b : DebugInner) (c : List Char × Bool)
    (h : b.result = false) :
    b.entry c = { b with has_fields := true } := by
  simp [DebugInner.entry, h]

/-- Once the map builder's result is an error (and no assertion has fired),
`key` is a complete no-op: the assertion and the writes sit inside the
`and_then` closure, which never runs. -/
theorem DebugMap.key_after_error (b : DebugMap) (c : List Char × Bool)
    (hp : b.panicked = false) (h : b.result = false) :
    b.key c = b := by
  simp [DebugMap.key, hp, h]

/-- Once the map builder's result is an error (and no assertion has fired),
`value` only updates `has_fields` (the assignment outside the `and_then`). -/
theorem DebugMap.value_after_error (b : DebugMap) (c : List Char × Bool)
    (hp : b.panicked = false) (h : b.result = false) :
    b.value c = { b with has_fields := true } := by
  simp [DebugMap.value, hp, h]

/-- Sticky error through any sequence of struct `field` calls: the sink is
untouched and the result stays the error. -/
theorem structSteps_after_error :
    (ops : List (List Char × (List Char × Bool))) → (b : DebugStruct) →
    b.result = false →
    (structSteps b ops).out = b.out ∧ (structSteps b ops).result = false
  | [], _, h => ⟨rfl, h⟩
  | (n, c) :: rest, b, h => by
    have ih := structSteps_after_error rest { b with has_fields := true } h
    simpa [structSteps, structField_after_error b n c h] using ih

/-- Sticky error through any sequence of tuple `field` calls. -/
theorem tupleSteps_after_error :
    (ops : List (List Char × Bool)) → (b : DebugTuple) → b.result = false →
    (tupleSteps b ops).out = b.out ∧ (tupleSteps b ops).result = false
  | [], _, h => ⟨rfl, h⟩
  | c :: rest, b, h => by
    have ih := tupleSteps_after_error rest { b with fields := b.fields + 1 } h
    simpa [tupleSteps, tupleField_after_error b c h] using ih

/-- Sticky error through any sequence of list/set `entry` calls. -/
theorem innerSteps_after_error :
    (ops : List (List Char × Bool)) → (b : DebugInner) → b.result = false →
    (innerSteps b ops).out = b.out ∧ (innerSteps b ops).result = false
  | [], _, h => ⟨rfl, h⟩
  | c :: rest, b, h => by
    have ih := innerSteps_after_error rest { b with has_fields := true } h
    simpa [innerSteps, DebugInner.entry_after_error b c h] using ih

/-- One map operation after a sticky error preserves the sink, the error and
the non-panicked state. -/
theorem mapStep_after_error (b : DebugMap) (op : MapOp)
    (hp : b.panicked = false) (h : b.result = false) :
    (mapStep b op).out = b.out ∧ (mapStep b op).result = false ∧
    (mapStep b op).panicked = false := by
  cases op with
  | key c => simp [mapStep, DebugMap.key_after_error b c hp h, h, hp]
  | value c => simp [mapStep, DebugMap.value_after_error b c hp h, h, hp]
  | entry k v =>
    simp [mapStep, DebugMap.entry, DebugMap.key_after_error b k hp h,
      DebugMap.value_after_error b v hp h, h, hp]

/-- Sticky error through any sequence of map operations. -/
theorem mapSteps_after_error :
    (ops : List MapOp) → (b : DebugMap) → b.panicked = false →
    b.result = false →
    (mapSteps b ops).out = b.out ∧ (mapSteps b ops).result = false ∧
    (mapSteps b ops).panicked = false
  | [], _, hp, h => ⟨rfl, h, hp⟩
  | op :: rest, b, hp, h => by
    obtain ⟨h1, h2, h3⟩ := mapStep_after_error b op hp h
    have ih := mapSteps_after_error rest (mapStep b op) h3 h2
    rw [h1] at ih
    simpa [mapSteps] using ih

/-- `DebugStruct::finish` after an error writes nothing and returns it. -/
theorem structFinish_after_error (b : DebugStruct)
    (h : b.result = false) : b.finish = (b.out, false) := by
  cases hb : b.has_fields <;> simp [DebugStruct.finish, h, hb]

/-- `DebugStruct::finish_non_exhaustive` after an error writes nothing. -/
theorem DebugStruct.finish_non_exhaustive_after_error (b : DebugStruct)
    (h : b.result = false) : b.finish_non_exhaustive = (b.out, false) := by
  simp [DebugStruct.finish_non_exhaustive, h]

/-- `DebugTuple::finish` after an error writes nothing and returns it. -/
theorem tupleFinish_after_error (b : DebugTuple) (h : b.result = false) :
    b.finish = (b.out, false) := by
  rcases Nat.eq_zero_or_pos b.fields with hb | hb <;>
    simp [DebugTuple.finish, h, hb]

/-- `DebugMap::finish` after an error skips the assertion (it sits inside the
`and_then`), writes nothing, and returns the error. -/
theorem mapFinish_after_error (b : DebugMap) (hp : b.panicked = false)
    (h : b.result = false) : b.finish = (b.out, .fErr) := by
  simp [DebugMap.finish, hp, h]

/-- `mapSteps` splits over list append. -/
theorem mapSteps_append (xs ys : List MapOp) :
    ∀ b : DebugMap, mapSteps b (xs ++ ys) = mapSteps (mapSteps b xs) ys := by
  induction xs with
  | nil => intro b; rfl
  | cons op rest ih => intro b; simp [mapSteps, ih]

/-! ### Claims -/

/-- C3: `pprint_checked` first renders the value once in Flat mode into a
fresh in-memory buffer; if that rendering's length is at most 80 bytes it is
returned unchanged as the final output, otherwise the value is rendered a
second time from scratch in Pretty mode and that second rendering is
returned. -/
theorem c3_pprint_checked_two_pass (v : DValue) (flat : List Char)
    (h : flatprint_checked v = .ok flat) :
    flatprint_checked v = pprint_mode v Mode.Flat ∧
    pprint_checked v =
      (if strLen flat ≤ MAX_LEN then .ok flat else pprint_mode v Mode.Pretty) := by
  refine ⟨rfl, ?_⟩
  simp only [pprint_checked, h]

/-- Witness for C3 at the leaf value `true`: its flat rendering is `"true"`,
which is at most 80 bytes, so `pprint_checked` returns it unchanged. -/
theorem c3_pprint_checked_two_pass_witness :
    pprint_checked (DValue.raw ['t', 'r', 'u', 'e']) =
      (if strLen ['t', 'r', 'u', 'e'] ≤ MAX_LEN then .ok ['t', 'r', 'u', 'e']
       else pprint_mode (DValue.raw ['t', 'r', 'u', 'e']) Mode.Pretty) :=
  (c3_pprint_checked_two_pass (DValue.raw ['t', 'r', 'u', 'e']) ['t', 'r', 'u', 'e']
    (by simp [flatprint_checked, pprint_mode, fmtVal])).2

/-- C4: for every builder (struct, tuple, list, set, map), once the builder's
result holds an error, every subsequent entry-adding operation leaves the
sink untouched and keeps the error, and the eventual `finish` (or
`finish_non_exhaustive`) call writes nothing and returns that error (for the
map builder, without firing any assertion). -/
theorem c4_sticky_error :
    (∀ (o : List Char) (hf : Bool) (ops : List (List Char × (List Char × Bool))),
      (structSteps ⟨o, false, hf⟩ ops).out = o ∧
      (structSteps ⟨o, false, hf⟩ ops).result = false ∧
      DebugStruct.finish (structSteps ⟨o, false, hf⟩ ops) = (o, false) ∧
      DebugStruct.finish_non_exhaustive (structSteps ⟨o, false, hf⟩ ops) = (o, false)) ∧
    (∀ (o : List Char) (k : Nat) (ops : List (List Char × Bool)),
      (tupleSteps ⟨o, false, k⟩ ops).out = o ∧
      (tupleSteps ⟨o, false, k⟩ ops).result = false ∧
      DebugTuple.finish (tupleSteps ⟨o, false, k⟩ ops) = (o, false)) ∧
    (∀ (o : List Char) (hf : Bool) (ops : List (List Char × Bool)),
      (innerSteps ⟨o, false, hf⟩ ops).out = o ∧
      (innerSteps ⟨o, false, hf⟩ ops).result = false ∧
      DebugList.finish ⟨innerSteps ⟨o, false, hf⟩ ops⟩ = (o, false) ∧
      DebugSet.finish ⟨innerSteps ⟨o, false, hf⟩ ops⟩ = (o, false)) ∧
    (∀ (o : List Char) (hf hk st : Bool) (ops : List MapOp),
      (mapSteps ⟨o, false, hf, hk, st, false⟩ ops).out = o ∧
      (mapSteps ⟨o, false, hf, hk, st, false⟩ ops).result = false ∧
      (mapSteps ⟨o, false, hf, hk, st, false⟩ ops).panicked = false ∧
      DebugMap.finish (mapSteps ⟨o, false, hf, hk, st, false⟩ ops) = (o, .fErr)) := by
  refine ⟨?_, ?_, ?_, ?_⟩
  · intro o hf ops
    obtain ⟨h1, h2⟩ := structSteps_after_error ops ⟨o, false, hf⟩ rfl
    have h3 := structFinish_after_error _ h2
    have h4 := DebugStruct.finish_non_exhaustive_after_error _ h2
    rw [h1] at h3 h4
    exact ⟨h1, h2, h3, h4⟩
  · intro o k ops
    obtain ⟨h1, h2⟩ := tupleSteps_after_error ops ⟨o, false, k⟩ rfl
    have h3 := tupleFinish_after_error _ h2
    rw [h1] at h3
    exact ⟨h1, h2, h3⟩
  · intro o hf ops
    obtain ⟨h1, h2⟩ := innerSteps_after_error ops ⟨o, false, hf⟩ rfl
    refine ⟨h1, h2, ?_, ?_⟩ <;> simp [DebugList.finish, DebugSet.finish, h1, h2]
  · intro o hf hk st ops
    obtain ⟨h1, h2, h3⟩ := mapSteps_after_error ops ⟨o, false, hf, hk, st, false⟩ rfl rfl
    have h4 := mapFinish_after_error _ h3 h2
    rw [h1] at h4
    exact ⟨h1, h2, h3, h4⟩

/-- C5: on a map builder that has not failed and has not already panicked,
calling `value` with no key pending, calling `key` with a key already
pending, or calling `finish` with a key pending fires the corresponding
`assert!` (modelled by the `panicked` flag) without writing anything,
rather than silently succeeding. -/
theorem c5_map_asserts_abort (o : List Char) (hf st : Bool)
    (k v : List Char × Bool) :
    DebugMap.value ⟨o, true, hf, false, st, false⟩ v
        = ⟨o, true, hf, false, st, true⟩ ∧
    DebugMap.key ⟨o, true, hf, true, st, false⟩ k
        = ⟨o, true, hf, true, st, true⟩ ∧
    DebugMap.finish ⟨o, true, hf, true, st, false⟩ = (o, .fPanic) := by
  refine ⟨?_, ?_, ?_⟩ <;> simp [DebugMap.value, DebugMap.key, DebugMap.finish]

/-- C9: `DebugMap::entry k v` is literally `key(k)` followed by `value(v)`,
so inserting it anywhere in a sequence of map operations produces a
byte-identical builder state, sink contents, and `finish` outcome. -/
theorem c9_entry_eq_key_value (b : DebugMap) (pre post : List MapOp)
    (k v : List Char × Bool) :
    mapSteps b (pre ++ MapOp.entry k v :: post)
        = mapSteps b (pre ++ MapOp.key k :: MapOp.value v :: post) ∧
    (mapSteps b (pre ++ MapOp.entry k v :: post)).out
        = (mapSteps b (pre ++ MapOp.key k :: MapOp.value v :: post)).out ∧
    DebugMap.finish (mapSteps b (pre ++ MapOp.entry k v :: post))
        = DebugMap.finish (mapSteps b (pre ++ MapOp.key k :: MapOp.value v :: post)) := by
  have h : mapSteps b (pre ++ MapOp.entry k v :: post)
      = mapSteps b (pre ++ MapOp.key k :: MapOp.value v :: post) := by
    rw [mapSteps_append pre (MapOp.entry k v :: post) b,
      mapSteps_append pre (MapOp.key k :: MapOp.value v :: post) b]
    rfl
  exact ⟨h, by rw [h], by rw [h]⟩

/-- C7 (code bug): the struct builder named `Foo` with the single field
`bar: true`, finished in Flat mode, renders as `"Foo {\n    bar: true,\n}"`
and not as the single line `"Foo { bar: true }"` claimed by the spec and by
the crate's own doc-tests: no builder consults the layout mode, so even the
flat pass emits the multi-line form. -/
theorem c7_struct_single_field_flat :
    DebugStruct.finish
        ((debug_struct_new { out := [], mode := Mode.Flat } ['F', 'o', 'o']).field
          ['b', 'a', 'r'] (['t', 'r', 'u', 'e'], true))
      = (['F', 'o', 'o', ' ', '\x7b', '\n', ' ', ' ', ' ', ' ', 'b', 'a', 'r',
          ':', ' ', 't', 'r', 'u', 'e', ',', '\n', '\x7d'], true) ∧
    ['F', 'o', 'o', ' ', '\x7b', '\n', ' ', ' ', ' ', ' ', 'b', 'a', 'r',
        ':', ' ', 't', 'r', 'u', 'e', ',', '\n', '\x7d']
      ≠ ['F', 'o', 'o', ' ', '\x7b', ' ', 'b', 'a', 'r', ':', ' ', 't', 'r',
          'u', 'e', ' ', '\x7d'] := by
  constructor
  · simp [debug_struct_new, DebugStruct.field, DebugStruct.finish,
      Formatter.write_str, padPure, findNewline, indentStr]
  · decide

/-- C10: a list builder finished with no entries outputs exactly `"[]"`, a
set builder `"{}"`, and a map builder `"{}"`; the closing delimiter is
appended whether or not entries were added, unlike the struct and tuple
builders, which render a zero-field value as the bare name. -/
theorem c10_empty_collections :
    DebugList.finish (debug_list_new { out := [], mode := Mode.Flat })
        = (['[', ']'], true) ∧
    DebugSet.finish (debug_set_new { out := [], mode := Mode.Flat })
        = (['\x7b', '\x7d'], true) ∧
    DebugMap.finish (debug_map_new { out := [], mode := Mode.Flat })
        = (['\x7b', '\x7d'], .fOk) ∧
    DebugStruct.finish (debug_struct_new { out := [], mode := Mode.Flat } ['F', 'o', 'o'])
        = (['F', 'o', 'o'], true) ∧
    DebugTuple.finish (debug_tuple_new { out := [], mode := Mode.Flat } ['F', 'o', 'o'])
        = (['F', 'o', 'o'], true) ∧
    (∀ (o : List Char) (hf : Bool),
      DebugList.finish ⟨⟨o, true, hf⟩⟩ = (o ++ [']'], true)) ∧
    (∀ (o : List Char) (hf : Bool),
      DebugSet.finish ⟨⟨o, true, hf⟩⟩ = (o ++ ['\x7d'], true)) := by
  refine ⟨?_, ?_, ?_, ?_, ?_, ?_, ?_⟩ <;>
    simp [DebugList.finish, DebugSet.finish, DebugMap.finish,
      DebugStruct.finish, DebugTuple.finish, debug_list_new, debug_set_new,
      debug_map_new, debug_struct_new, debug_tuple_new, Formatter.write_str]

/-- C1 (code bug): the list value `[10, 11]` has a flat rendering of 19 bytes
(at most 80), and `pprint_checked` returns that flat rendering unchanged --
but it contains the four-space indent token, because the indentation writer
runs identically in Flat mode.  The claim (and the crate's own doc-test
`assert_eq!(pprint(Foo(vec![10, 11])), "[10, 11]")`) says no indentation
characters appear in this case. -/
theorem c1_flat_output_contains_indentation :
    pprint_checked (DValue.lst [.raw ['1', '0'], .raw ['1', '1']])
      = .ok ['[', '\n', ' ', ' ', ' ', ' ', '1', '0', ',', '\n',
             ' ', ' ', ' ', ' ', '1', '1', ',', '\n', ']'] ∧
    strLen ['[', '\n', ' ', ' ', ' ', ' ', '1', '0', ',', '\n',
             ' ', ' ', ' ', ' ', '1', '1', ',', '\n', ']'] ≤ MAX_LEN ∧
    (['[', '\n', ' ', ' ', ' ', ' ', '1', '0', ',', '\n',
        ' ', ' ', ' ', ' ', '1', '1', ',', '\n', ']'].drop 2).take 4 = indentStr := by
  refine ⟨?_, by decide, by decide⟩
  simp [pprint_checked, flatprint_checked, pprint_mode, fmtVal, fmtListEntries,
    debug_list_new, DebugList.entry, DebugInner.entry, DebugList.finish,
    Formatter.write_str, padPure, findNewline, indentStr, strLen, MAX_LEN]

/-! ### The indentation writer meets its contract -/

/-- If the loop's newline search fails, the input has no newline. -/
theorem findNewline_none : (s : List Char) → findNewline s = none → '\n' ∉ s
  | [], _ => by simp
  | c :: cs, h => by
    rw [findNewline] at h
    by_cases hc : c = '\n'
    · simp [hc] at h
    · simp only [hc, if_false, Option.map_eq_none'] at h
      have := findNewline_none cs h
      simp [hc, this, Ne.symm hc]

/-- If the loop's newline search returns `pos`, the chunk it takes is the
newline-free prefix of length `pos` followed by the newline itself. -/
theorem findNewline_some_split :
    (s : List Char) → (pos : Nat) → findNewline s = some pos →
    s.take (pos + 1) = s.take pos ++ ['\n'] ∧ '\n' ∉ s.take pos
  | [], pos, h => by simp [findNewline] at h
  | c :: cs, pos, h => by
    rw [findNewline] at h
    by_cases hc : c = '\n'
    · simp only [hc, if_true, Option.some.injEq] at h
      subst h
      simp [hc]
    · simp only [hc, if_false, Option.map_eq_some'] at h
      obtain ⟨k, hk, rfl⟩ := h
      obtain ⟨ih1, ih2⟩ := findNewline_some_split cs k hk
      refine ⟨?_, ?_⟩
      · simp [List.take_succ_cons, ih1]
      · simp [List.take_succ_cons, hc, ih2, Ne.symm hc]

/-- The spec-side transform splits over appended input. -/
theorem specInsertIndent_append (xs ys : List Char) : ∀ b : Bool,
    specInsertIndent b (xs ++ ys) =
      ((specInsertIndent b xs).1 ++
        (specInsertIndent (specInsertIndent b xs).2 ys).1,
       (specInsertIndent (specInsertIndent b xs).2 ys).2) := by
  induction xs with
  | nil => intro b; simp [specInsertIndent]
  | cons c cs ih => intro b; simp [specInsertIndent, ih]

/-- On newline-free input the spec-side transform writes at most one indent
(at the front, when starting at line start) and ends mid-line unless the
input was empty. -/
theorem specInsertIndent_no_newline :
    (xs : List Char) → '\n' ∉ xs → ∀ b : Bool,
    specInsertIndent b xs =
      ((if b ∧ xs ≠ [] then indentStr else []) ++ xs,
       if xs = [] then b else false)
  | [], _, b => by simp [specInsertIndent]
  | c :: cs, h, b => by
    have hc : ¬ c = '\n' := fun hh => h (by simp [hh])
    have ih := specInsertIndent_no_newline cs (fun hm => h (by simp [hm])) false
    rw [specInsertIndent]
    rw [show decide (c = '\n') = false by simp [hc], ih]
    rcases Decidable.em (cs = []) with hcs | hcs <;> cases b <;> simp [hcs]

/-- On a chunk that is a newline-free prefix followed by one newline -- the
exact shape the loop takes in one iteration -- the spec-side transform
writes the indent (when at line start) then the chunk, ending at line
start. -/
theorem specInsertIndent_chunk (ys : List Char) (h : '\n' ∉ ys) (b : Bool) :
    specInsertIndent b (ys ++ ['\n']) =
      ((if b then indentStr else []) ++ ys ++ ['\n'], true) := by
  rcases Decidable.em (ys = []) with hys | hys
  · subst hys
    cases b <;> simp [specInsertIndent]
  · rw [specInsertIndent_append ys ['\n'] b,
      specInsertIndent_no_newline ys h b]
    cases b <;> simp [hys, specInsertIndent]

/-- The `PadAdapter::write_str` loop over the in-memory sink computes exactly
the character-at-a-time spec-side transform. -/
theorem padPure_spec : (s : List Char) → ∀ (acc : List Char) (b : Bool),
    padPure acc b s = (acc ++ (specInsertIndent b s).1, (specInsertIndent b s).2)
  | [], acc, b => by simp [padPure, specInsertIndent]
  | c :: cs, acc, b => by
    rw [padPure]
    cases h : findNewline (c :: cs) with
    | none =>
      have hnn : '\n' ∉ (c :: cs) := findNewline_none _ h
      rw [specInsertIndent_no_newline _ hnn b]
      cases b <;> simp
    | some pos =>
      obtain ⟨hsplit, hnin⟩ := findNewline_some_split _ _ h
      have ih := padPure_spec ((c :: cs).drop (pos + 1))
      show padPure ((if b then acc ++ indentStr else acc) ++ (c :: cs).take (pos + 1)) true
          ((c :: cs).drop (pos + 1)) = _
      rw [ih]
      conv_rhs => rw [← List.take_append_drop (pos + 1) (c :: cs)]
      rw [specInsertIndent_append, hsplit, specInsertIndent_chunk _ hnin b]
      cases b <;> simp
termination_by s => s.length
decreasing_by simp; omega

/-- The pad loop is a morphism for concatenation over the in-memory sink:
writing `s ++ t` in one call has the same effect as writing `s` then `t`.
This is what justifies feeding a nested value's concatenated output through
the adapter in a single call in the builder model. -/
theorem padPure_append (s t acc : List Char) (b : Bool) :
    padPure acc b (s ++ t) =
      padPure (padPure acc b s).1 (padPure acc b s).2 t := by
  simp [padPure_spec, specInsertIndent_append]

/-- Over the infallible in-memory sink, the abstract fallible loop
`padWriteStr` never fails and agrees with `padPure`. -/
theorem padWriteStr_concatSink : (s : List Char) → ∀ (acc : List Char) (b : Bool),
    padWriteStr concatSink acc b s = .ok (padPure acc b s)
  | [], acc, b => by simp [padWriteStr, padPure]
  | c :: cs, acc, b => by
    rw [padWriteStr, padPure]
    cases h : findNewline (c :: cs) with
    | none => cases b <;> rfl
    | some pos =>
      have ih := padWriteStr_concatSink ((c :: cs).drop (pos + 1))
      cases b <;> exact ih _ _
termination_by s => s.length
decreasing_by simp; omega

/-- Threading `padWriteStr` over the in-memory sink across a whole sequence
of calls reproduces the spec-side transform of the whole sequence. -/
theorem padWriteCalls_spec : (calls : List (List Char)) →
    ∀ (acc : List Char) (b : Bool),
    padWriteCalls (acc, b) calls =
      .ok (acc ++ (specRun b calls).1, (specRun b calls).2)
  | [], acc, b => by simp [padWriteCalls, specRun]
  | s :: rest, acc, b => by
    have ih := padWriteCalls_spec rest
    rw [padWriteCalls, padWriteStr_concatSink, padPure_spec]
    show padWriteCalls (acc ++ (specInsertIndent b s).1, (specInsertIndent b s).2) rest = _
    rw [ih]
    simp [specRun]

/-- C8: for every sequence of write calls, the indentation writer reproduces
the concatenated input in the destination except that the four-space indent
token is inserted immediately before each character that begins a new line
(including the first character written at line start), with line-start state
preserved across calls; and a destination write failure is propagated out
verbatim (the error value is returned unchanged, with no retry). -/
theorem c8_pad_adapter_contract :
    (∀ (calls : List (List Char)) (acc : List Char) (b : Bool),
      padWriteCalls (acc, b) calls =
        .ok (acc ++ (specRun b calls).1, (specRun b calls).2)) ∧
    (∀ (σ ε : Type) (st : σ) (e : ε) (b : Bool) (c : Char) (cs : List Char),
      padWriteStr (fun _ _ => .error e) st b (c :: cs) = .error e) := by
  constructor
  · exact fun calls acc b => padWriteCalls_spec calls acc b
  · intro σ ε st e b c cs
    rw [padWriteStr]
    cases h : findNewline (c :: cs) with
    | none => cases b <;> rfl
    | some pos => cases b <;> rfl

/-! ### The layout mode is never consulted -/

mutual

/-- Rendering a value is independent of the layout mode: no builder
operation and no part of the indentation writer reads it. -/
theorem fmtVal_mode_eq (m m2 : Mode) : (v : DValue) → fmtVal m v = fmtVal m2 v
  | .raw s => by simp [fmtVal]
  | .err => by simp [fmtVal]
  | .strct n fs => by
    simp only [fmtVal]
    rw [fmtStructFields_mode_eq m m2 fs]
    rfl
  | .tup n fs => by
    simp only [fmtVal]
    rw [fmtTupleFields_mode_eq m m2 fs]
    rfl
  | .lst xs => by
    simp only [fmtVal]
    rw [fmtListEntries_mode_eq m m2 xs]
    rfl
  | .set xs => by
    simp only [fmtVal]
    rw [fmtSetEntries_mode_eq m m2 xs]
    rfl
  | .map kvs => by
    simp only [fmtVal]
    rw [fmtMapEntries_mode_eq m m2 kvs]
    rfl
termination_by v => sizeOf v
decreasing_by all_goals (simp_wf <;> omega)

/-- Mode-independence of the struct-field fold. -/
theorem fmtStructFields_mode_eq (m m2 : Mode) :
    (fs : List (List Char × DValue)) → (b : DebugStruct) →
    fmtStructFields m b fs = fmtStructFields m2 b fs
  | [], _ => by simp [fmtStructFields]
  | (n, v) :: rest, b => by
    simp only [fmtStructFields]
    rw [fmtVal_mode_eq m m2 v, fmtStructFields_mode_eq m m2 rest]
termination_by fs => sizeOf fs
decreasing_by all_goals (simp_wf <;> omega)

/-- Mode-independence of the tuple-field fold. -/
theorem fmtTupleFields_mode_eq (m m2 : Mode) :
    (fs : List DValue) → (b : DebugTuple) →
    fmtTupleFields m b fs = fmtTupleFields m2 b fs
  | [], _ => by simp [fmtTupleFields]
  | v :: rest, b => by
    simp only [fmtTupleFields]
    rw [fmtVal_mode_eq m m2 v, fmtTupleFields_mode_eq m m2 rest]
termination_by fs => sizeOf fs
decreasing_by all_goals (simp_wf <;> omega)

/-- Mode-independence of the list-entry fold. -/
theorem fmtListEntries_mode_eq (m m2 : Mode) :
    (xs : List DValue) → (b : DebugList) →
    fmtListEntries m b xs = fmtListEntries m2 b xs
  | [], _ => by simp [fmtListEntries]
  | v :: rest, b => by
    simp only [fmtListEntries]
    rw [fmtVal_mode_eq m m2 v, fmtListEntries_mode_eq m m2 rest]
termination_by xs => sizeOf xs
decreasing_by all_goals (simp_wf <;> omega)

/-- Mode-independence of the set-entry fold. -/
theorem fmtSetEntries_mode_eq (m m2 : Mode) :
    (xs : List DValue) → (b : DebugSet) →
    fmtSetEntries m b xs = fmtSetEntries m2 b xs
  | [], _ => by simp [fmtSetEntries]
  | v :: rest, b => by
    simp only [fmtSetEntries]
    rw [fmtVal_mode_eq m m2 v, fmtSetEntries_mode_eq m m2 rest]
termination_by xs => sizeOf xs
decreasing_by all_goals (simp_wf <;> omega)

/-- Mode-independence of the map-entry fold. -/
theorem fmtMapEntries_mode_eq (m m2 : Mode) :
    (kvs : List (DValue × DValue)) → (b : DebugMap) →
    fmtMapEntries m b kvs = fmtMapEntries m2 b kvs
  | [], _ => by simp [fmtMapEntries]
  | (k, v) :: rest, b => by
    simp only [fmtMapEntries]
    rw [fmtVal_mode_eq m m2 k, fmtVal_mode_eq m m2 v, fmtMapEntries_mode_eq m m2 rest]
termination_by kvs => sizeOf kvs
decreasing_by all_goals (simp_wf <;> omega)

end

/-- C2: rendering under Flat mode and rendering under Pretty mode produce
byte-identical output -- the layout mode stored in the formatter is never
consulted by any builder or by the indentation writer, so the Pretty
re-render inside `pprint_checked` returns the same string as the flat
pass. -/
theorem c2_mode_never_consulted :
    (∀ (m m2 : Mode) (v : DValue), fmtVal m v = fmtVal m2 v) ∧
    (∀ v : DValue, pprint_mode v Mode.Flat = pprint_mode v Mode.Pretty) ∧
    (∀ v : DValue, pprint_checked v = flatprint_checked v) := by
  have hmode : ∀ v : DValue, pprint_mode v Mode.Flat = pprint_mode v Mode.Pretty :=
    fun v => by simp only [pprint_mode, fmtVal_mode_eq Mode.Flat Mode.Pretty v]
  refine ⟨fun m m2 v => fmtVal_mode_eq m m2 v, hmode, fun v => ?_⟩
  rcases hv : flatprint_checked v with e | flat
  · simp [pprint_checked, hv]
  · simp only [pprint_checked, hv]
    split
    · rfl
    · rw [← hmode v]
      exact hv

/-! ### A failing nested renderer poisons the whole render -/

/-- The struct builder's result after `field` is Ok exactly when it was Ok
before and the nested value rendered without error (writes to the in-memory
sink itself cannot fail). -/
theorem structField_result (b : DebugStruct) (n : List Char)
    (c : List Char × Bool) : (b.field n c).result = (b.result && c.2) := by
  cases hb : b.result <;> cases hc : c.2 <;> simp [DebugStruct.field, hb, hc]

/-- Same for the tuple builder. -/
theorem tupleField_result (b : DebugTuple) (c : List Char × Bool) :
    (b.field c).result = (b.result && c.2) := by
  cases hb : b.result <;> cases hc : c.2 <;> simp [DebugTuple.field, hb, hc]

/-- Same for the list/set core. -/
theorem DebugInner.entry_result (b : DebugInner) (c : List Char × Bool) :
    (b.entry c).result = (b.result && c.2) := by
  cases hb : b.result <;> cases hc : c.2 <;> simp [DebugInner.entry, hb, hc]

/-- An error stays latched through the struct-field fold of the dispatcher. -/
theorem fmtStructFields_result_false (m : Mode) :
    (fs : List (List Char × DValue)) → (b : DebugStruct) → b.result = false →
    (fmtStructFields m b fs).result = false
  | [], _, h => by rw [fmtStructFields]; exact h
  | (n, v) :: rest, b, h => by
    rw [fmtStructFields]
    exact fmtStructFields_result_false m rest _ (by simp [structField_result, h])

/-- An error stays latched through the tuple-field fold. -/
theorem fmtTupleFields_result_false (m : Mode) :
    (fs : List DValue) → (b : DebugTuple) → b.result = false →
    (fmtTupleFields m b fs).result = false
  | [], _, h => by rw [fmtTupleFields]; exact h
  | v :: rest, b, h => by
    rw [fmtTupleFields]
    exact fmtTupleFields_result_false m rest _ (by simp [tupleField_result, h])

/-- An error stays latched through the list-entry fold. -/
theorem fmtListEntries_result_false (m : Mode) :
    (xs : List DValue) → (b : DebugList) → b.inner.result = false →
    (fmtListEntries m b xs).inner.result = false
  | [], _, h => by rw [fmtListEntries]; exact h
  | v :: rest, b, h => by
    rw [fmtListEntries]
    exact fmtListEntries_result_false m rest _
      (by simp [DebugList.entry, DebugInner.entry_result, h])

/-- An error stays latched through the set-entry fold. -/
theorem fmtSetEntries_result_false (m : Mode) :
    (xs : List DValue) → (b : DebugSet) → b.inner.result = false →
    (fmtSetEntries m b xs).inner.result = false
  | [], _, h => by rw [fmtSetEntries]; exact h
  | v :: rest, b, h => by
    rw [fmtSetEntries]
    exact fmtSetEntries_result_false m rest _
      (by simp [DebugSet.entry, DebugInner.entry_result, h])

/-- An error stays latched through the map-entry fold, and no assertion fires
along the way. -/
theorem fmtMapEntries_after_error (m : Mode) :
    (kvs : List (DValue × DValue)) → (b : DebugMap) → b.panicked = false →
    b.result = false →
    (fmtMapEntries m b kvs).result = false ∧ (fmtMapEntries m b kvs).panicked = false
  | [], _, hp, h => by rw [fmtMapEntries]; exact ⟨h, hp⟩
  | (k, v) :: rest, b, hp, h => by
    rw [fmtMapEntries]
    have he : b.entry (fmtVal m k) (fmtVal m v) = { b with has_fields := true } := by
      rw [DebugMap.entry, DebugMap.key_after_error b _ hp h,
        DebugMap.value_after_error b _ hp h]
    rw [he]
    exact fmtMapEntries_after_error m rest _ hp h

/-- A map `entry` whose key or value renderer fails latches the error without
firing an assertion (from a healthy state with no pending key). -/
theorem DebugMap.entry_err_child (b : DebugMap) (k v : List Char × Bool)
    (hp : b.panicked = false) (hr : b.result = true) (hk : b.has_key = false)
    (h : k.2 = false ∨ v.2 = false) :
    (b.entry k v).result = false ∧ (b.entry k v).panicked = false := by
  cases hk2 : k.2 with
  | false => simp [DebugMap.entry, DebugMap.key, DebugMap.value, hp, hr, hk, hk2]
  | true =>
    have hv2 : v.2 = false := by
      rcases h with h | h
      · rw [hk2] at h; cases h
      · exact h
    simp [DebugMap.entry, DebugMap.key, DebugMap.value, hp, hr, hk, hk2, hv2]

/-- A map `entry` preserves the health invariant: no assertion has fired, and
whenever the result is still Ok there is no pending key. -/
theorem DebugMap.entry_inv (b : DebugMap) (k v : List Char × Bool)
    (hp : b.panicked = false) (hinv : b.result = true → b.has_key = false) :
    (b.entry k v).panicked = false ∧
    ((b.entry k v).result = true → (b.entry k v).has_key = false) := by
  cases hr : b.result with
  | false =>
    have he : b.entry k v = { b with has_fields := true } := by
      rw [DebugMap.entry, DebugMap.key_after_error b _ hp hr,
        DebugMap.value_after_error b _ hp hr]
    rw [he]
    simp [hp, hr]
  | true =>
    have hk := hinv hr
    cases hk2 : k.2 <;> cases hv2 : v.2 <;>
      simp [DebugMap.entry, DebugMap.key, DebugMap.value, hp, hr, hk, hk2, hv2]

mutual

/-- If any nested part of a value is the failing renderer, rendering the
value returns an error. -/
theorem fmtVal_hasErr (m : Mode) : (v : DValue) → hasErr v = true →
    (fmtVal m v).2 = false
  | .raw s, h => by simp [hasErr] at h
  | .err, _ => by simp [fmtVal]
  | .strct n fs, h => by
    have hfs : hasErrFields fs = true := by simpa [hasErr] using h
    have hres := fmtStructFields_hasErr m fs (debug_struct_new { out := [], mode := m } n) hfs
    simp only [fmtVal]
    rw [structFinish_after_error _ hres]
  | .tup n fs, h => by
    have hfs : hasErrList fs = true := by simpa [hasErr] using h
    have hres := fmtTupleFields_hasErr m fs (debug_tuple_new { out := [], mode := m } n) hfs
    simp only [fmtVal]
    rw [tupleFinish_after_error _ hres]
  | .lst xs, h => by
    have hxs : hasErrList xs = true := by simpa [hasErr] using h
    have hres := fmtListEntries_hasErr m xs (debug_list_new { out := [], mode := m }) hxs
    simp only [fmtVal]
    simp [DebugList.finish, hres]
  | .set xs, h => by
    have hxs : hasErrList xs = true := by simpa [hasErr] using h
    have hres := fmtSetEntries_hasErr m xs (debug_set_new { out := [], mode := m }) hxs
    simp only [fmtVal]
    simp [DebugSet.finish, hres]
  | .map kvs, h => by
    have hkv : hasErrPairs kvs = true := by simpa [hasErr] using h
    obtain ⟨hres, hpan⟩ := fmtMapEntries_hasErr m kvs (debug_map_new { out := [], mode := m })
      rfl (fun _ => rfl) hkv
    simp only [fmtVal]
    rw [mapFinish_after_error _ hpan hres]
    simp [MapFinishRes.isOk]
termination_by v => sizeOf v
decreasing_by all_goals (simp_wf <;> omega)

/-- A failing renderer among the struct fields latches the error. -/
theorem fmtStructFields_hasErr (m : Mode) :
    (fs : List (List Char × DValue)) → (b : DebugStruct) →
    hasErrFields fs = true → (fmtStructFields m b fs).result = false
  | [], _, h => by simp [hasErrFields] at h
  | (n, v) :: rest, b, h => by
    rw [fmtStructFields]
    cases hv : hasErr v with
    | true =>
      have hc := fmtVal_hasErr m v hv
      exact fmtStructFields_result_false m rest _
        (by simp [structField_result, hc])
    | false =>
      have hrest : hasErrFields rest = true := by
        rw [hasErrFields] at h
        simpa [hv] using h
      exact fmtStructFields_hasErr m rest _ hrest
termination_by fs => sizeOf fs
decreasing_by all_goals (simp_wf <;> omega)

/-- A failing renderer among the tuple fields latches the error. -/
theorem fmtTupleFields_hasErr (m : Mode) :
    (fs : List DValue) → (b : DebugTuple) →
    hasErrList fs = true → (fmtTupleFields m b fs).result = false
  | [], _, h => by simp [hasErrList] at h
  | v :: rest, b, h => by
    rw [fmtTupleFields]
    cases hv : hasErr v with
    | true =>
      have hc := fmtVal_hasErr m v hv
      exact fmtTupleFields_result_false m rest _
        (by simp [tupleField_result, hc])
    | false =>
      have hrest : hasErrList rest = true := by
        rw [hasErrList] at h
        simpa [hv] using h
      exact fmtTupleFields_hasErr m rest _ hrest
termination_by fs => sizeOf fs
decreasing_by all_goals (simp_wf <;> omega)

/-- A failing renderer among the list entries latches the error. -/
theorem fmtListEntries_hasErr (m : Mode) :
    (xs : List DValue) → (b : DebugList) →
    hasErrList xs = true → (fmtListEntries m b xs).inner.result = false
  | [], _, h => by simp [hasErrList] at h
  | v :: rest, b, h => by
    rw [fmtListEntries]
    cases hv : hasErr v with
    | true =>
      have hc := fmtVal_hasErr m v hv
      exact fmtListEntries_result_false m rest _
        (by simp [DebugList.entry, DebugInner.entry_result, hc])
    | false =>
      have hrest : hasErrList rest = true := by
        rw [hasErrList] at h
        simpa [hv] using h
      exact fmtListEntries_hasErr m rest _ hrest
termination_by xs => sizeOf xs
decreasing_by all_goals (simp_wf <;> omega)

/-- A failing renderer among the set entries latches the error. -/
theorem fmtSetEntries_hasErr (m : Mode) :
    (xs : List DValue) → (b : DebugSet) →
    hasErrList xs = true → (fmtSetEntries m b xs).inner.result = false
  | [], _, h => by simp [hasErrList] at h
  | v :: rest, b, h => by
    rw [fmtSetEntries]
    cases hv : hasErr v with
    | true =>
      have hc := fmtVal_hasErr m v hv
      exact fmtSetEntries_result_false m rest _
        (by simp [DebugSet.entry, DebugInner.entry_result, hc])
    | false =>
      have hrest : hasErrList rest = true := by
        rw [hasErrList] at h
        simpa [hv] using h
      exact fmtSetEntries_hasErr m rest _ hrest
termination_by xs => sizeOf xs
decreasing_by all_goals (simp_wf <;> omega)

/-- A failing renderer among the map entries latches the error without firing
any assertion, starting from a healthy builder. -/
theorem fmtMapEntries_hasErr (m : Mode) :
    (kvs : List (DValue × DValue)) → (b : DebugMap) → b.panicked = false →
    (b.result = true → b.has_key = false) → hasErrPairs kvs = true →
    (fmtMapEntries m b kvs).result = false ∧ (fmtMapEntries m b kvs).panicked = false
  | [], _, _, _, h => by simp [hasErrPairs] at h
  | (k, v) :: rest, b, hp, hinv, h => by
    rw [fmtMapEntries]
    cases hkerr : hasErr k with
    | true =>
      have hc : (fmtVal m k).2 = false ∨ (fmtVal m v).2 = false :=
        Or.inl (fmtVal_hasErr m k hkerr)
      cases hr : b.result with
      | false =>
        have he : b.entry (fmtVal m k) (fmtVal m v) = { b with has_fields := true } := by
          rw [DebugMap.entry, DebugMap.key_after_error b _ hp hr,
            DebugMap.value_after_error b _ hp hr]
        rw [he]
        exact fmtMapEntries_after_error m rest _ hp hr
      | true =>
        obtain ⟨h1, h2⟩ := DebugMap.entry_err_child b _ _ hp hr (hinv hr) hc
        exact fmtMapEntries_after_error m rest _ h2 h1
    | false =>
      cases hverr : hasErr v with
      | true =>
        have hc : (fmtVal m k).2 = false ∨ (fmtVal m v).2 = false :=
          Or.inr (fmtVal_hasErr m v hverr)
        cases hr : b.result with
        | false =>
          have he : b.entry (fmtVal m k) (fmtVal m v) = { b with has_fields := true } := by
            rw [DebugMap.entry, DebugMap.key_after_error b _ hp hr,
              DebugMap.value_after_error b _ hp hr]
          rw [he]
          exact fmtMapEntries_after_error m rest _ hp hr
        | true =>
          obtain ⟨h1, h2⟩ := DebugMap.entry_err_child b _ _ hp hr (hinv hr) hc
          exact fmtMapEntries_after_error m rest _ h2 h1
      | false =>
        have hrest : hasErrPairs rest = true := by
          rw [hasErrPairs] at h
          simpa [hkerr, hverr] using h
        obtain ⟨hi1, hi2⟩ := DebugMap.entry_inv b (fmtVal m k) (fmtVal m v) hp hinv
        exact fmtMapEntries_hasErr m rest _ hi1 hi2 hrest
termination_by kvs => sizeOf kvs
decreasing_by all_goals (simp_wf <;> omega)

end

/-- C6: if any nested value's rendering fails, `pprint_checked` on the
containing structure returns an error, regardless of how many entries come
before or after the failing one: the flat pass already fails, and `?`
propagates the failure. -/
theorem c6_nested_error_propagates (v : DValue) (h : hasErr v = true) :
    pprint_checked v = .error () := by
  have hf := fmtVal_hasErr Mode.Flat v h
  rcases hv : fmtVal Mode.Flat v with ⟨o, ok⟩
  rw [hv] at hf
  simp only at hf
  subst hf
  simp [pprint_checked, flatprint_checked, pprint_mode, hv]

/-- Witness for C6: a struct with a healthy field before and after the
failing one still renders to an error. -/
theorem c6_nested_error_propagates_witness :
    pprint_checked (DValue.strct ['F', 'o', 'o']
      [(['a'], .raw ['1']), (['b'], .err), (['c'], .raw ['2'])]) = .error () :=
  c6_nested_error_propagates
    (DValue.strct ['F', 'o', 'o']
      [(['a'], .raw ['1']), (['b'], .err), (['c'], .raw ['2'])])
    (by simp [hasErr, hasErrFields])

end Debug2
